import Mathlib

/-!
Verification development for the boids2 repository (src/src/main.js).

The development shallowly embeds the two algorithmic subsystems of the
program:

TileMap generation (classes `CenterPoint`, `MapTile`, `Map` in the source;
`Map` is rendered here as `GameMap` to avoid clashing with library names):
nearest-seed classification (`Game.init`, lines 361-376), the neighbor
generator (`MapTile.neighbors`, lines 60-73) and edge smoothing
(`Map.liminalize`, lines 109-126).  Grid coordinates and squared distances
are exact integers in the source (all points are produced by
`Math.floor`), so they are embedded as `Int`/`Nat`.

Boid flocking (`BoidRule` subclasses, lines 137-218, and `Boid.simulate`,
lines 253-271): positions, velocities and rule weights are JavaScript
numbers; they are embedded as exact rationals (`Rat`).  This idealizes
IEEE-754 rounding away; none of the properties proved below depends on
rounding.  The single place where genuine IEEE-754 special values matter -
the division by a zero peer count in `CenterOfMassRule` and
`MatchVelocityRule` - is additionally embedded with an explicit
special-value arithmetic (`JsNum`), in which 1/0 evaluates to the positive
infinity and 0 * infinity evaluates to the not-a-number value, exactly as
in JavaScript.
-/

/-! ## Integer grid geometry -/

/-- Squared Euclidean distance on the integer grid: `vec2.sqrDist(a, b)`
of gl-matrix, which computes `(b[0]-a[0])^2 + (b[1]-a[1])^2`.  All calls
in the map-generation code are on integer points, so the value is exact. -/
def sqrDistZ (a b : ℤ × ℤ) : ℤ :=
  (b.1 - a.1) ^ 2 + (b.2 - a.2) ^ 2

/-- The list of integers from `a` to `b` inclusive (empty when `b < a`);
the index range of a JavaScript loop `for (let i = a; i <= b; i++)`. -/
def intRange (a b : ℤ) : List ℤ :=
  (List.range (b + 1 - a).toNat).map (fun i => a + (i : ℤ))

/-- The enumeration order of the generator `pointsInScreen(width, height)`
(main.js lines 30-36): `y` in `[0, height)` outer, `x` in `[0, width)`
inner, so the point `(x, y)` appears at list index `y * width + x`. -/
def pointsList (width height : ℕ) : List (ℤ × ℤ) :=
  (List.range height).flatMap (fun (y : ℕ) =>
    (List.range width).map (fun (x : ℕ) => ((x : ℤ), (y : ℤ))))

/-! ## Map data model -/

/-- A seed for the Voronoi-like classification: class `CenterPoint`
(main.js lines 45-50). -/
structure CenterPoint where
  point : ℤ × ℤ
  kind : ℕ
deriving DecidableEq, Repr

/-- One grid cell: class `MapTile` (main.js lines 52-58).  The source
tile also stores a back-pointer to its map, which is represented here by
passing the map explicitly to the operations that use it.  `kind` is
`undefined` (here `none`) until classification assigns it. -/
structure MapTile where
  point : ℤ × ℤ
  kind : Option ℕ
  edgeFactor : ℕ
deriving DecidableEq, Repr

instance : Inhabited MapTile := ⟨⟨(0, 0), none, 0⟩⟩

/-- The tile map: class `Map` of the source (renamed to avoid shadowing
library names).  `tiles` is the backing array `this.array`, indexed by
`y * width + x`. -/
structure GameMap where
  width : ℕ
  height : ℕ
  tiles : List MapTile
deriving DecidableEq, Repr

/-- The `Map` constructor for the dimensions the host actually supplies
(positive canvas sizes): allocates one tile per grid point, in
`pointsInScreen` order, which is exactly index order `y * width + x`
(main.js lines 88-95). -/
def mkGameMap (width height : ℕ) : GameMap :=
  { width := width, height := height,
    tiles := (pointsList width height).map
      (fun p => { point := p, kind := none, edgeFactor := 0 }) }

/-- Array lookup `this.array[y * this.width + x]` (main.js lines 97-99).
An out-of-range read yields `undefined` in JavaScript; it is modelled by
the default tile, and every lookup the program performs is in range. -/
def GameMap.get (m : GameMap) (x y : ℕ) : MapTile :=
  m.tiles.getD (y * m.width + x) default

/-- The coordinates the generator `MapTile.neighbors(n)` iterates over and
does not skip (main.js lines 60-73).  The guard is transcribed literally:
`x !== this.point[0] && y !== this.point[1] && x >= 0 && y >= 0 &&
x < width && y < height`.  The default `n = n || 1` treats both a missing
argument and `0` as `1`; `liminalize` always calls it with the default. -/
def MapTile.neighborCoords (t : MapTile) (width height : ℕ) (n : ℕ) : List (ℤ × ℤ) :=
  let nz : ℤ := if n = 0 then 1 else n
  (intRange (t.point.2 - nz) (t.point.2 + nz)).flatMap (fun y =>
    (intRange (t.point.1 - nz) (t.point.1 + nz)).filterMap (fun x =>
      if x ≠ t.point.1 ∧ y ≠ t.point.2 ∧ 0 ≤ x ∧ 0 ≤ y ∧
          x < (width : ℤ) ∧ y < (height : ℤ)
      then some (x, y) else none))

/-- The tiles yielded by `tile.neighbors()`: `this.map.get(x, y)` at each
coordinate the generator does not skip. -/
def GameMap.neighborsOf (m : GameMap) (t : MapTile) : List MapTile :=
  (t.neighborCoords m.width m.height 1).map (fun q => m.get q.1.toNat q.2.toNat)

/-- Modelled from the spec (claims C3 and C4 speak about the full Moore
neighborhood): the in-bounds cells among all 8 grid-adjacent coordinates
of `p`, the cell itself excluded.  This is the spec-side definition the
source's `MapTile.neighbors` is compared against. -/
def specMooreNeighborCoords (p : ℤ × ℤ) (width height : ℕ) : List (ℤ × ℤ) :=
  (intRange (p.2 - 1) (p.2 + 1)).flatMap (fun y =>
    (intRange (p.1 - 1) (p.1 + 1)).filterMap (fun x =>
      if ¬(x = p.1 ∧ y = p.2) ∧ 0 ≤ x ∧ 0 ≤ y ∧
          x < (width : ℤ) ∧ y < (height : ℤ)
      then some (x, y) else none))

/-- One step of the `maxEdge` accumulation inside `Map.liminalize`
(main.js lines 114-120), transcribed literally:
`if (neighbor.kind !== tile.kind && maxEdge === 0) maxEdge = 1;
else if (neighbor.edgeFactor > maxEdge) maxEdge = neighbor.edgeFactor;`. -/
def edgeStep (kind : Option ℕ) (maxEdge : ℕ) (nb : MapTile) : ℕ :=
  if nb.kind ≠ kind ∧ maxEdge = 0 then 1
  else if maxEdge < nb.edgeFactor then nb.edgeFactor
  else maxEdge

/-- The `maxEdge` value `liminalize` computes for one tile: a fold of
`edgeStep` over the tile's neighbors, starting from 0. -/
def GameMap.maxEdgeForTile (m : GameMap) (t : MapTile) : ℕ :=
  (m.neighborsOf t).foldl (edgeStep t.kind) 0

/-- Edge smoothing, `Map.liminalize` (main.js lines 109-126).  The source
fills `edgeFactors[y*width+x]` while looping over `pointsInScreen` - the
same y-major order in which index `y*width+x` increases - and only then
copies `edgeFactors[i]` into `array[i].edgeFactor` for every `i`.  For a
map whose tile array has length `width*height` (every map the constructor
produces), that is exactly the index-wise zip below. -/
def GameMap.liminalize (m : GameMap) : GameMap :=
  let edgeFactors := (pointsList m.width m.height).map
    (fun p => m.maxEdgeForTile (m.get p.1.toNat p.2.toNat))
  let newTiles := List.zipWith (fun t e => { t with edgeFactor := e }) m.tiles edgeFactors
  { m with tiles := newTiles }

/-! ## Nearest-seed classification (Game.init, main.js lines 361-376) -/

/-- The largest finite double, `Number.MAX_VALUE = 2^1024 - 2^971`, the
initial value of `minDistance` in the classification loop.  Written as a
literal so that kernel evaluation of concrete maps stays shallow; the
lemma `jsMaxValue_eq` below checks the literal against the formula. -/
def jsMaxValue : ℤ := 179769313486231570814527423731704356798070567525844996598917476803157260780028538760589558632766878171540458953514382464234321326889464182768467546703537516986049910576551282076245490090389328944075868508455133942304583236903222948165808559332123348274797826204144723168738177180919299881250404026184124858368

/-- One iteration of the classification loop over the seeds (main.js
lines 365-374): a strict improvement of the running minimum replaces the
current seed, so a later seed at an equal distance never replaces an
earlier one.  The loop also computes an `isCenterPoint` flag that nothing
reads afterwards; it is omitted. -/
def nearestStep (p : ℤ × ℤ) (acc : ℤ × Option CenterPoint) (cp : CenterPoint) :
    ℤ × Option CenterPoint :=
  if sqrDistZ p cp.point < acc.1 then (sqrDistZ p cp.point, some cp) else acc

/-- The seed the classification loop leaves in `curCenterPoint` for the
cell `p`: fold of `nearestStep` starting from
`minDistance = Number.MAX_VALUE`, `curCenterPoint = undefined`. -/
def nearestCenterPoint (cps : List CenterPoint) (p : ℤ × ℤ) : Option CenterPoint :=
  (cps.foldl (nearestStep p) (jsMaxValue, none)).2

/-- The class the loop assigns to the cell `p`: `curCenterPoint.kind`.
With an empty seed list the source would crash reading `.kind` of
`undefined`; the model returns `none` there, and every theorem about the
classification assumes a non-empty seed list. -/
def classifyCell (cps : List CenterPoint) (p : ℤ × ℤ) : Option ℕ :=
  (nearestCenterPoint cps p).map (fun c => c.kind)

/-- The classification pass of `Game.init`: for every grid point, in
`pointsInScreen` order, write the nearest seed's kind into the tile at
index `y*width+x`.  As in `liminalize`, for a map whose tile array has
length `width*height` this is the index-wise zip with the point list. -/
def GameMap.classify (m : GameMap) (cps : List CenterPoint) : GameMap :=
  let newTiles := List.zipWith (fun t p => { t with kind := classifyCell cps p })
    m.tiles (pointsList m.width m.height)
  { m with tiles := newTiles }

/-- Modelled from the spec (claim C6): the minimal squared distance from
`p` to a seed of the list, `none` for the empty list. -/
def specMinSqrDist (cps : List CenterPoint) (p : ℤ × ℤ) : Option ℤ :=
  match cps.map (fun c => sqrDistZ p c.point) with
  | [] => none
  | d :: ds => some (ds.foldl min d)

/-- Modelled from the spec (claim C6): the first seed, in iteration
order, whose squared distance to `p` attains the minimum. -/
def specNearestSeed (cps : List CenterPoint) (p : ℤ × ℤ) : Option CenterPoint :=
  match specMinSqrDist cps p with
  | none => none
  | some m => cps.find? (fun c => sqrDistZ p c.point = m)

/-! ## Map construction with arbitrary integer dimensions (claim C8) -/

/-- The one way `new Map(width, height)` can fail: `new Array(n)` throws
a `RangeError` (invalid array length) when `n` is negative.  No error type
of the source is called InvalidDimension; the identifier appears nowhere
in the repository. -/
inductive JsHostError where
  | rangeError
deriving DecidableEq, Repr

/-- A map built with arbitrary integer dimensions: `allocLen` is the
length of the backing `new Array(width * height)`, and `tiles` are the
slots the constructor loop actually populates (the loop over
`pointsInScreen(width, height)` runs zero iterations when either
dimension is `≤ 0`). -/
structure GameMapZ where
  width : ℤ
  height : ℤ
  allocLen : ℕ
  tiles : List MapTile
deriving DecidableEq, Repr

/-- The `Map` constructor on arbitrary integer dimensions (main.js lines
88-95).  It performs no validation of its own: the only failure is the
host's `RangeError` from a negative array length `width * height`. -/
def mkGameMapZ (width height : ℤ) : Except JsHostError GameMapZ :=
  if width * height < 0 then Except.error JsHostError.rangeError
  else Except.ok
    { width := width, height := height,
      allocLen := (width * height).toNat,
      tiles := (pointsList width.toNat height.toNat).map
        (fun p => { point := p, kind := none, edgeFactor := 0 }) }

/-! ## Well-formedness -/

/-- A map is well formed when its tile list carries exactly the grid
points in index order - the shape the constructor establishes and every
pass preserves. -/
def GameMap.WF (m : GameMap) : Prop :=
  m.tiles.map (fun t => t.point) = pointsList m.width m.height

instance (m : GameMap) : Decidable m.WF := by
  unfold GameMap.WF; infer_instance

/-- A map is fresh when no edge factor has been written yet - the state
`liminalize` runs on inside `Game.init`. -/
def GameMap.Fresh (m : GameMap) : Prop :=
  ∀ t ∈ m.tiles, t.edgeFactor = 0

instance (m : GameMap) : Decidable m.Fresh := by
  unfold GameMap.Fresh; infer_instance

/-! ## Concrete maps used as counterexample inputs -/

/-- A 3 by 3 map classified from three seeds placed so that only the
corner cell (0,0) receives class 1; every other cell receives class 0. -/
def cexMap3 : GameMap :=
  (mkGameMap 3 3).classify
    [⟨(0, 0), 1⟩, ⟨(1, 0), 0⟩, ⟨(0, 1), 0⟩]

/-- A 2 by 1 map classified from two seeds, one per cell, so that the two
horizontally adjacent cells receive different classes. -/
def cexMap21 : GameMap :=
  (mkGameMap 2 1).classify [⟨(0, 0), 0⟩, ⟨(1, 0), 1⟩]

/-! ## Boid flocking: exact-rational model

Positions, velocities and weights are JavaScript numbers in the source;
they are embedded as exact rationals.  The weight literals 0.01 and 0.10
and the quotients 1/6, 1/50 denote here the exact rationals the source
notation denotes mathematically; IEEE-754 rounds some of them, which no
claim below depends on.  Division by a zero peer count is the one place
where the rational idealization diverges from JavaScript; the theorems
about `CenterOfMassRule` and `MatchVelocityRule` therefore live in the
`JsNum` special-value model further down, and the rational versions of
those two rules are only ever used with a non-empty peer set. -/

/-- A 2-d vector, gl-matrix `vec2`, with exact rational components. -/
abbrev Vec := ℚ × ℚ

/-- gl-matrix `vec2.add`. -/
def vadd (a b : Vec) : Vec := (a.1 + b.1, a.2 + b.2)

/-- gl-matrix `vec2.sub` (out = a - b). -/
def vsub (a b : Vec) : Vec := (a.1 - b.1, a.2 - b.2)

/-- gl-matrix `vec2.scale` (out = a * s componentwise). -/
def vscale (a : Vec) (s : ℚ) : Vec := (a.1 * s, a.2 * s)

/-- gl-matrix `vec2.negate`. -/
def vneg (a : Vec) : Vec := (-a.1, -a.2)

/-- gl-matrix `vec2.sqrDist`. -/
def sqrDistQ (a b : Vec) : ℚ := (b.1 - a.1) ^ 2 + (b.2 - a.2) ^ 2

/-- Sum of a list of vectors, used to state what the Separation fold
accumulates. -/
def vsum (l : List Vec) : Vec := l.foldl vadd (0, 0)

/-- One agent: class `Boid` (main.js lines 229-251).  The manager
back-pointer is represented by passing the full boid list explicitly;
`id` is the `shortid` identity used by `Boid.equals`. -/
structure BoidState where
  id : ℕ
  position : Vec
  velocity : Vec
deriving DecidableEq, Repr

/-- The peer set: generator `Boid.otherBoids` (main.js lines 245-251),
every boid of the manager whose id differs from the target's. -/
def otherBoids (self : BoidState) (all : List BoidState) : List BoidState :=
  all.filter (fun b => b.id != self.id)

/-- Raw contribution of `CenterOfMassRule.applyImpl` (main.js lines
152-165): the peer positions are summed, scaled by `1.0 / numOtherBoids`,
and the target position is subtracted. -/
def centerOfMassImpl (target : BoidState) (others : List BoidState) : Vec :=
  let centerOfMass := others.foldl (fun acc b => vadd acc b.position) (0, 0)
  let numOtherBoids : ℚ := others.length
  vsub (vscale centerOfMass (1 / numOtherBoids)) target.position

/-- Raw contribution of `AvoidanceRule.applyImpl` (main.js lines
173-183), transcribed literally: for every peer with
`sqrDist(target.position, otherBoid.position) < distanceThreshold` the
fold performs `result -= target.position; result += otherBoid.position`. -/
def avoidanceImpl (target : BoidState) (distanceThreshold : ℚ)
    (others : List BoidState) : Vec :=
  others.foldl
    (fun result b =>
      if sqrDistQ target.position b.position < distanceThreshold then
        vadd (vsub result target.position) b.position
      else result)
    (0, 0)

/-- Raw contribution of `MatchVelocityRule.applyImpl` (main.js lines
186-198). -/
def matchVelocityImpl (target : BoidState) (others : List BoidState) : Vec :=
  let result := others.foldl (fun acc b => vadd acc b.velocity) (0, 0)
  let numOtherBoids : ℚ := others.length
  vsub (vscale result (1 / numOtherBoids)) target.velocity

/-- Raw contribution of `AttractToPointRule.applyImpl` (main.js lines
200-211). -/
def attractToPointImpl (targetPoint : Vec) (target : BoidState) : Vec :=
  vsub targetPoint target.position

/-- Raw contribution of `SlowDownRule.applyImpl` (main.js lines 213-218). -/
def slowDownImpl (target : BoidState) : Vec := vneg target.velocity

/-- The throttling constant `BOID_THINK_RATE` (main.js line 220). -/
def BOID_THINK_RATE : ℕ := 6

/-- `Map.screenToLocal` (main.js lines 101-107) with `PIXEL_SIZE = 8`:
scale the screen point by 1/8 and clamp each component into
`[0, width]` respectively `[0, height]`. -/
def screenToLocal (width height : ℕ) (point : Vec) : Vec :=
  let unclamped := vscale point (1 / 8)
  (max 0 (min unclamped.1 (width : ℚ)), max 0 (min unclamped.2 (height : ℚ)))

/-- The weighted results of the four `baseRules` (main.js lines 221-226)
followed by the `AttractToPointRule` result, in the order
`Boid.simulate` pushes them: each raw `applyImpl` output scaled by the
rule's weight, per `BoidRule.apply` (main.js lines 142-145). -/
def ruleResults (mouse : Vec) (mapWidth mapHeight : ℕ) (self : BoidState)
    (others : List BoidState) : List Vec :=
  [ vscale (centerOfMassImpl self others) (1 / 100),
    vscale (avoidanceImpl self 10 others) 1,
    vscale (matchVelocityImpl self others) (1 / 8),
    vscale (slowDownImpl self) (1 / 10),
    vscale (attractToPointImpl (screenToLocal mapWidth mapHeight mouse) self) (1 / 50) ]

/-- One call of `Boid.simulate` (main.js lines 253-271): on frames with
`frameCount % BOID_THINK_RATE === 0` every rule result is added into the
velocity; on every frame the position is advanced by the (possibly just
updated) velocity scaled by `1.0 / BOID_THINK_RATE`. -/
def simulateBoid (frameCount : ℕ) (mouse : Vec) (mapWidth mapHeight : ℕ)
    (all : List BoidState) (b : BoidState) : BoidState :=
  let velocity1 :=
    if frameCount % BOID_THINK_RATE = 0 then
      (ruleResults mouse mapWidth mapHeight b (otherBoids b all)).foldl vadd b.velocity
    else b.velocity
  { b with velocity := velocity1,
           position := vadd b.position (vscale velocity1 (1 / 6)) }

/-! ## Boid rules under IEEE-754 special values (claim C2)

JavaScript numbers are IEEE-754 doubles.  `JsNum` models a double as an
exact rational, a signed infinity, or the not-a-number value; the
operations below implement the IEEE-754 special-value rules, which are
exact (no rounding is involved in producing or propagating them).
Negative zero is not modelled; no computation embedded here can tell the
two zeros apart. -/

inductive JsNum where
  | fin (q : ℚ)
  | posInf
  | negInf
  | nan
deriving DecidableEq, Repr

/-- IEEE-754 addition on the special-value model. -/
def jadd : JsNum → JsNum → JsNum
  | JsNum.nan, _ => JsNum.nan
  | _, JsNum.nan => JsNum.nan
  | JsNum.fin a, JsNum.fin b => JsNum.fin (a + b)
  | JsNum.posInf, JsNum.negInf => JsNum.nan
  | JsNum.negInf, JsNum.posInf => JsNum.nan
  | JsNum.posInf, _ => JsNum.posInf
  | _, JsNum.posInf => JsNum.posInf
  | JsNum.negInf, _ => JsNum.negInf
  | _, JsNum.negInf => JsNum.negInf

/-- IEEE-754 negation. -/
def jneg : JsNum → JsNum
  | JsNum.fin a => JsNum.fin (-a)
  | JsNum.posInf => JsNum.negInf
  | JsNum.negInf => JsNum.posInf
  | JsNum.nan => JsNum.nan

/-- IEEE-754 subtraction: `a - b = a + (-b)` holds exactly for every
combination of special values. -/
def jsub (a b : JsNum) : JsNum := jadd a (jneg b)

/-- IEEE-754 multiplication; in particular `0 * infinity` is NaN. -/
def jmul : JsNum → JsNum → JsNum
  | JsNum.nan, _ => JsNum.nan
  | _, JsNum.nan => JsNum.nan
  | JsNum.fin a, JsNum.fin b => JsNum.fin (a * b)
  | JsNum.fin a, JsNum.posInf =>
      if a = 0 then JsNum.nan else if 0 < a then JsNum.posInf else JsNum.negInf
  | JsNum.posInf, JsNum.fin a =>
      if a = 0 then JsNum.nan else if 0 < a then JsNum.posInf else JsNum.negInf
  | JsNum.fin a, JsNum.negInf =>
      if a = 0 then JsNum.nan else if 0 < a then JsNum.negInf else JsNum.posInf
  | JsNum.negInf, JsNum.fin a =>
      if a = 0 then JsNum.nan else if 0 < a then JsNum.negInf else JsNum.posInf
  | JsNum.posInf, JsNum.posInf => JsNum.posInf
  | JsNum.negInf, JsNum.negInf => JsNum.posInf
  | JsNum.posInf, JsNum.negInf => JsNum.negInf
  | JsNum.negInf, JsNum.posInf => JsNum.negInf

/-- IEEE-754 division; in particular a positive number divided by zero is
the positive infinity (the sign rules for a negative-zero divisor are not
modelled; the embedded code only divides by the nonnegative peer count). -/
def jdiv : JsNum → JsNum → JsNum
  | JsNum.nan, _ => JsNum.nan
  | _, JsNum.nan => JsNum.nan
  | JsNum.fin a, JsNum.fin b =>
      if b = 0 then
        (if 0 < a then JsNum.posInf else if a < 0 then JsNum.negInf else JsNum.nan)
      else JsNum.fin (a / b)
  | JsNum.fin _, JsNum.posInf => JsNum.fin 0
  | JsNum.fin _, JsNum.negInf => JsNum.fin 0
  | JsNum.posInf, JsNum.fin b => if 0 ≤ b then JsNum.posInf else JsNum.negInf
  | JsNum.negInf, JsNum.fin b => if 0 ≤ b then JsNum.negInf else JsNum.posInf
  | JsNum.posInf, JsNum.posInf => JsNum.nan
  | JsNum.posInf, JsNum.negInf => JsNum.nan
  | JsNum.negInf, JsNum.posInf => JsNum.nan
  | JsNum.negInf, JsNum.negInf => JsNum.nan

/-- A vec2 whose components are special-value doubles. -/
abbrev JVec := JsNum × JsNum

def jvadd (a b : JVec) : JVec := (jadd a.1 b.1, jadd a.2 b.2)

def jvsub (a b : JVec) : JVec := (jsub a.1 b.1, jsub a.2 b.2)

def jvscale (a : JVec) (s : JsNum) : JVec := (jmul a.1 s, jmul a.2 s)

/-- An agent in the special-value model; only position and velocity
matter for the two division rules. -/
structure JsBoid where
  position : JVec
  velocity : JVec
deriving DecidableEq, Repr

/-- `CenterOfMassRule.applyImpl` (main.js lines 152-165) evaluated in
IEEE-754 special-value arithmetic, the peer set passed explicitly. -/
def jsCenterOfMassImpl (target : JsBoid) (others : List JsBoid) : JVec :=
  let centerOfMass := others.foldl (fun acc b => jvadd acc b.position)
    (JsNum.fin 0, JsNum.fin 0)
  let numOtherBoids : ℕ := others.length
  jvsub (jvscale centerOfMass (jdiv (JsNum.fin 1) (JsNum.fin numOtherBoids)))
    target.position

/-- `MatchVelocityRule.applyImpl` (main.js lines 186-198) evaluated in
IEEE-754 special-value arithmetic. -/
def jsMatchVelocityImpl (target : JsBoid) (others : List JsBoid) : JVec :=
  let result := others.foldl (fun acc b => jvadd acc b.velocity)
    (JsNum.fin 0, JsNum.fin 0)
  let numOtherBoids : ℕ := others.length
  jvsub (jvscale result (jdiv (JsNum.fin 1) (JsNum.fin numOtherBoids)))
    target.velocity

/-! ## Concrete boids used in counterexamples and witnesses -/

/-- The single agent of a one-boid flock, at the origin with zero
velocity, in the special-value model. -/
def zeroJsBoid : JsBoid := ⟨(JsNum.fin 0, JsNum.fin 0), (JsNum.fin 0, JsNum.fin 0)⟩

/-- A boid at the origin with zero velocity. -/
def boidA : BoidState := ⟨0, (0, 0), (0, 0)⟩

/-- A peer one unit to the right of `boidA`, well inside the Separation
threshold. -/
def boidB : BoidState := ⟨1, (1, 0), (0, 0)⟩

/-- A peer at squared distance exactly 10 from `boidA` - exactly on the
Separation threshold boundary. -/
def boidC : BoidState := ⟨1, (3, 1), (0, 0)⟩

/-- A second flock member used by the think-rate witness. -/
def boidD : BoidState := ⟨1, (5, 5), (1, 0)⟩

/-- A two-boid flock. -/
def flockW : List BoidState := [boidA, boidD]

/-! ## Helper lemmas: the point grid and tile indexing -/

theorem grid_index_lt {w h x y : ℕ} (hx : x < w) (hy : y < h) :
    y * w + x < h * w := by
  calc y * w + x < y * w + w := Nat.add_lt_add_left hx _
    _ = (y + 1) * w := by ring
    _ ≤ h * w := Nat.mul_le_mul_right w hy

theorem pointsList_succ (w h : ℕ) :
    pointsList w (h + 1) =
      pointsList w h ++ (List.range w).map (fun (x : ℕ) => ((x : ℤ), (h : ℤ))) := by
  unfold pointsList
  rw [List.range_succ, List.flatMap_append]
  simp

theorem pointsList_length (w h : ℕ) : (pointsList w h).length = h * w := by
  induction h with
  | zero => simp [pointsList]
  | succ n ih =>
      rw [pointsList_succ, List.length_append, ih, List.length_map,
        List.length_range, Nat.succ_mul]

theorem pointsList_getElem? {w x y : ℕ} (hx : x < w) :
    ∀ {h : ℕ}, y < h → (pointsList w h)[y * w + x]? = some ((x : ℤ), (y : ℤ)) := by
  intro h
  induction h with
  | zero => omega
  | succ n ih =>
      intro hy
      rw [pointsList_succ]
      by_cases hyn : y < n
      · rw [List.getElem?_append_left (by rw [pointsList_length]; exact grid_index_lt hx hyn)]
        exact ih hyn
      · have hyeq : y = n := by omega
        subst hyeq
        rw [List.getElem?_append_right (by rw [pointsList_length]; omega)]
        rw [pointsList_length]
        have hsub : y * w + x - y * w = x := by omega
        rw [hsub, List.getElem?_map, List.getElem?_range hx]
        rfl

theorem GameMap.WF.tiles_length {m : GameMap} (h : m.WF) :
    m.tiles.length = m.height * m.width := by
  have hl := congrArg List.length h
  simpa [pointsList_length] using hl

theorem tiles_getElem?_get {m : GameMap} {x y : ℕ}
    (hi : y * m.width + x < m.tiles.length) :
    m.tiles[y * m.width + x]? = some (m.get x y) := by
  have ht := List.getElem?_eq_getElem hi
  simp [GameMap.get, List.getD_eq_getElem?_getD, ht]

theorem GameMap.WF.get_point {m : GameMap} (h : m.WF) {x y : ℕ}
    (hx : x < m.width) (hy : y < m.height) :
    (m.get x y).point = ((x : ℤ), (y : ℤ)) := by
  have hi : y * m.width + x < m.tiles.length := by
    rw [h.tiles_length]; exact grid_index_lt hx hy
  have hmap : (m.tiles.map (fun t => t.point))[y * m.width + x]? =
      (pointsList m.width m.height)[y * m.width + x]? := by rw [h]
  rw [List.getElem?_map, tiles_getElem?_get hi, pointsList_getElem? hx hy] at hmap
  simpa using hmap

theorem zipWith_getElem?_eq {α β γ : Type} (f : α → β → γ) {l₁ : List α}
    {l₂ : List β} {i : ℕ} {a : α} {b : β} (ha : l₁[i]? = some a)
    (hb : l₂[i]? = some b) : (List.zipWith f l₁ l₂)[i]? = some (f a b) := by
  rw [List.getElem?_zipWith, ha, hb]

theorem mem_zipWith_imp {α β γ : Type} {f : α → β → γ} {l₁ : List α}
    {l₂ : List β} {c : γ} (h : c ∈ List.zipWith f l₁ l₂) :
    ∃ a ∈ l₁, ∃ b ∈ l₂, c = f a b := by
  induction l₁ generalizing l₂ with
  | nil => simp at h
  | cons a t ih =>
      cases l₂ with
      | nil => simp at h
      | cons b t₂ =>
          rw [List.zipWith_cons_cons] at h
          rcases List.mem_cons.mp h with h1 | h2
          · exact ⟨a, List.mem_cons_self a t, b, List.mem_cons_self b t₂, h1⟩
          · obtain ⟨a1, ha1, b1, hb1, hc⟩ := ih h2
            exact ⟨a1, List.mem_cons_of_mem a ha1, b1, List.mem_cons_of_mem b hb1, hc⟩

theorem zipWith_map_eq {α β γ : Type} (f : α → β → α) (g : α → γ)
    (hpres : ∀ a b, g (f a b) = g a) :
    ∀ (l₁ : List α) (l₂ : List β), l₂.length = l₁.length →
      (List.zipWith f l₁ l₂).map g = l₁.map g
  | [], _, _ => by simp
  | a :: t₁, [], h => by simp at h
  | a :: t₁, b :: t₂, h => by
      simp only [List.zipWith_cons_cons, List.map_cons]
      rw [hpres a b, zipWith_map_eq f g hpres t₁ t₂ (by simpa using h)]

/-! ## Helper lemmas: access into liminalize and classify results -/

theorem liminalize_tiles_eq (m : GameMap) :
    (m.liminalize).tiles = List.zipWith (fun t e => { t with edgeFactor := e })
      m.tiles ((pointsList m.width m.height).map
        (fun p => m.maxEdgeForTile (m.get p.1.toNat p.2.toNat))) := rfl

theorem classify_tiles_eq (m : GameMap) (cps : List CenterPoint) :
    (m.classify cps).tiles = List.zipWith (fun t p => { t with kind := classifyCell cps p })
      m.tiles (pointsList m.width m.height) := rfl

theorem liminalize_get {m : GameMap} (hwf : m.WF) {x y : ℕ}
    (hx : x < m.width) (hy : y < m.height) :
    (m.liminalize).get x y =
      { m.get x y with edgeFactor := m.maxEdgeForTile (m.get x y) } := by
  have hi : y * m.width + x < m.tiles.length := by
    rw [hwf.tiles_length]; exact grid_index_lt hx hy
  have ht := tiles_getElem?_get hi
  have he : ((pointsList m.width m.height).map
      (fun p => m.maxEdgeForTile (m.get p.1.toNat p.2.toNat)))[y * m.width + x]? =
      some (m.maxEdgeForTile (m.get x y)) := by
    rw [List.getElem?_map, pointsList_getElem? hx hy]
    simp
  have hz := zipWith_getElem?_eq (fun t e => { t with edgeFactor := e }) ht he
  rw [← liminalize_tiles_eq] at hz
  show (m.liminalize).tiles.getD (y * m.width + x) default = _
  rw [List.getD_eq_getElem?_getD, hz]
  rfl

theorem classify_get {m : GameMap} (hwf : m.WF) (cps : List CenterPoint) {x y : ℕ}
    (hx : x < m.width) (hy : y < m.height) :
    (m.classify cps).get x y =
      { m.get x y with kind := classifyCell cps ((x : ℤ), (y : ℤ)) } := by
  have hi : y * m.width + x < m.tiles.length := by
    rw [hwf.tiles_length]; exact grid_index_lt hx hy
  have ht := tiles_getElem?_get hi
  have he := pointsList_getElem? hx hy (w := m.width)
  have hz := zipWith_getElem?_eq (fun t p => { t with kind := classifyCell cps p }) ht he
  rw [← classify_tiles_eq] at hz
  show (m.classify cps).tiles.getD (y * m.width + x) default = _
  rw [List.getD_eq_getElem?_getD, hz]
  rfl

theorem liminalize_WF {m : GameMap} (hwf : m.WF) : (m.liminalize).WF := by
  have hlen : ((pointsList m.width m.height).map
      (fun p => m.maxEdgeForTile (m.get p.1.toNat p.2.toNat))).length = m.tiles.length := by
    rw [List.length_map, pointsList_length, hwf.tiles_length]
  show (m.liminalize).tiles.map (fun t => t.point) =
    pointsList (m.liminalize).width (m.liminalize).height
  rw [liminalize_tiles_eq,
    zipWith_map_eq (fun t e => { t with edgeFactor := e }) (fun t => t.point)
      (fun a b => rfl) m.tiles _ hlen]
  exact hwf

theorem classify_WF {m : GameMap} (hwf : m.WF) (cps : List CenterPoint) :
    (m.classify cps).WF := by
  have hlen : (pointsList m.width m.height).length = m.tiles.length := by
    rw [pointsList_length, hwf.tiles_length]
  show (m.classify cps).tiles.map (fun t => t.point) =
    pointsList (m.classify cps).width (m.classify cps).height
  rw [classify_tiles_eq,
    zipWith_map_eq (fun t p => { t with kind := classifyCell cps p }) (fun t => t.point)
      (fun a b => rfl) m.tiles _ hlen]
  exact hwf

/-! ## Helper lemmas: the maxEdge fold -/

theorem jsMaxValue_eq : jsMaxValue = 2 ^ 1024 - 2 ^ 971 := by
  norm_num [jsMaxValue]

theorem foldl_edgeStep_zero (k : Option ℕ) :
    ∀ (l : List MapTile), (∀ nb ∈ l, nb.edgeFactor = 0) → ∀ acc,
      l.foldl (edgeStep k) acc =
        if acc = 0 ∧ l.any (fun nb => nb.kind != k) then 1 else acc
  | [], _, acc => by simp
  | nb :: t, hef, acc => by
      have hnb : nb.edgeFactor = 0 := hef nb (List.mem_cons_self nb t)
      have ht : ∀ u ∈ t, u.edgeFactor = 0 :=
        fun u hu => hef u (List.mem_cons_of_mem nb hu)
      rw [List.foldl_cons]
      by_cases hk : nb.kind = k
      · have hstep : edgeStep k acc nb = acc := by
          simp [edgeStep, hk, hnb]
        rw [hstep, foldl_edgeStep_zero k t ht acc]
        simp [hk]
      · by_cases ha : acc = 0
        · have hstep : edgeStep k acc nb = 1 := by
            simp [edgeStep, hk, ha]
          rw [hstep, foldl_edgeStep_zero k t ht 1]
          simp [hk, ha]
        · have hstep : edgeStep k acc nb = acc := by
            simp [edgeStep, ha, hnb]
          rw [hstep, foldl_edgeStep_zero k t ht acc]
          simp [ha]

theorem foldl_edgeStep_le_one (k : Option ℕ) :
    ∀ (l : List MapTile), (∀ nb ∈ l, nb.edgeFactor ≤ 1) → ∀ acc, acc ≤ 1 →
      l.foldl (edgeStep k) acc =
        if acc = 0 ∧ l.any (fun nb => nb.kind != k || nb.edgeFactor == 1)
        then 1 else acc
  | [], _, acc, _ => by simp
  | nb :: t, hef, acc, hacc => by
      have hnb : nb.edgeFactor ≤ 1 := hef nb (List.mem_cons_self nb t)
      have ht : ∀ u ∈ t, u.edgeFactor ≤ 1 :=
        fun u hu => hef u (List.mem_cons_of_mem nb hu)
      rw [List.foldl_cons]
      by_cases ha : acc = 0
      · subst ha
        by_cases hk : nb.kind = k
        · by_cases he : nb.edgeFactor = 1
          · have hstep : edgeStep k 0 nb = 1 := by
              simp [edgeStep, hk, he]
            rw [hstep, foldl_edgeStep_le_one k t ht 1 le_rfl]
            simp [hk, he]
          · have he0 : nb.edgeFactor = 0 := by omega
            have hstep : edgeStep k 0 nb = 0 := by
              simp [edgeStep, hk, he0]
            rw [hstep, foldl_edgeStep_le_one k t ht 0 (by omega)]
            simp [hk, he0]
        · have hstep : edgeStep k 0 nb = 1 := by
            simp [edgeStep, hk]
          rw [hstep, foldl_edgeStep_le_one k t ht 1 le_rfl]
          simp [hk]
      · have hstep : edgeStep k acc nb = acc := by
          have : ¬ acc < nb.edgeFactor := by omega
          simp [edgeStep, ha, this]
        rw [hstep, foldl_edgeStep_le_one k t ht acc hacc]
        simp [ha]

/-! ## Helper lemmas: neighbors and freshness -/

theorem mem_neighborCoords_bounds {t : MapTile} {w h n : ℕ} {q : ℤ × ℤ}
    (hq : q ∈ t.neighborCoords w h n) :
    0 ≤ q.1 ∧ 0 ≤ q.2 ∧ q.1 < (w : ℤ) ∧ q.2 < (h : ℤ) := by
  simp only [MapTile.neighborCoords, List.mem_flatMap, List.mem_filterMap] at hq
  obtain ⟨y, hy, x, hx, hif⟩ := hq
  split_ifs at hif with hc
  · obtain ⟨h1, h2, h3, h4, h5, h6⟩ := hc
    obtain ⟨rfl, rfl⟩ : x = q.1 ∧ y = q.2 := by
      have := Option.some.inj hif
      exact ⟨congrArg Prod.fst this, congrArg Prod.snd this⟩
    exact ⟨h3, h4, h5, h6⟩

theorem neighborCoords_congr {t₁ t₂ : MapTile} (hp : t₁.point = t₂.point)
    (w h n : ℕ) : t₁.neighborCoords w h n = t₂.neighborCoords w h n := by
  simp [MapTile.neighborCoords, hp]

theorem fresh_get_edgeFactor {m : GameMap} (hf : m.Fresh) (x y : ℕ) :
    (m.get x y).edgeFactor = 0 := by
  rw [GameMap.get, List.getD_eq_getElem?_getD]
  cases hg : m.tiles[y * m.width + x]? with
  | none => rfl
  | some t =>
      simp only [Option.getD_some]
      exact hf t (List.mem_iff_getElem?.mpr ⟨_, hg⟩)

theorem maxEdgeForTile_fresh {m : GameMap} (hf : m.Fresh) (t : MapTile) :
    m.maxEdgeForTile t =
      if (m.neighborsOf t).any (fun nb => nb.kind != t.kind) then 1 else 0 := by
  have hz : ∀ nb ∈ m.neighborsOf t, nb.edgeFactor = 0 := by
    intro nb hnb
    obtain ⟨q, hq, rfl⟩ := List.mem_map.mp hnb
    exact fresh_get_edgeFactor hf _ _
  rw [GameMap.maxEdgeForTile, foldl_edgeStep_zero t.kind _ hz 0]
  simp

theorem maxEdgeForTile_fresh_le_one {m : GameMap} (hf : m.Fresh) (t : MapTile) :
    m.maxEdgeForTile t ≤ 1 := by
  rw [maxEdgeForTile_fresh hf]
  split <;> omega

theorem liminalize_get_ef_le_one {m : GameMap} (hf : m.Fresh) (x y : ℕ) :
    ((m.liminalize).get x y).edgeFactor ≤ 1 := by
  show ((m.liminalize).tiles.getD (y * (m.liminalize).width + x) default).edgeFactor ≤ 1
  rw [List.getD_eq_getElem?_getD]
  cases hg : (m.liminalize).tiles[y * (m.liminalize).width + x]? with
  | none => simp [default]
  | some t =>
      simp only [Option.getD_some]
      have ht : t ∈ (m.liminalize).tiles := List.mem_iff_getElem?.mpr ⟨_, hg⟩
      rw [liminalize_tiles_eq] at ht
      obtain ⟨a, ha, e, he, rfl⟩ := mem_zipWith_imp ht
      obtain ⟨p, hp, rfl⟩ := List.mem_map.mp he
      exact maxEdgeForTile_fresh_le_one hf _

theorem liminalize_edgeFactor_fresh {m : GameMap} (hwf : m.WF) (hf : m.Fresh)
    {x y : ℕ} (hx : x < m.width) (hy : y < m.height) :
    ((m.liminalize).get x y).edgeFactor =
      if (m.neighborsOf (m.get x y)).any (fun nb => nb.kind != (m.get x y).kind)
      then 1 else 0 := by
  rw [liminalize_get hwf hx hy]
  exact maxEdgeForTile_fresh hf _

theorem liminalize_edgeFactor_le_one_input {m : GameMap} (hwf : m.WF)
    (hle : ∀ a b : ℕ, (m.get a b).edgeFactor ≤ 1) {x y : ℕ}
    (hx : x < m.width) (hy : y < m.height) :
    ((m.liminalize).get x y).edgeFactor =
      if (m.neighborsOf (m.get x y)).any
        (fun nb => nb.kind != (m.get x y).kind || nb.edgeFactor == 1)
      then 1 else 0 := by
  rw [liminalize_get hwf hx hy]
  have hz : ∀ nb ∈ m.neighborsOf (m.get x y), nb.edgeFactor ≤ 1 := by
    intro nb hnb
    obtain ⟨q, hq, rfl⟩ := List.mem_map.mp hnb
    exact hle _ _
  show m.maxEdgeForTile (m.get x y) = _
  rw [GameMap.maxEdgeForTile, foldl_edgeStep_le_one _ _ hz 0 (by omega)]
  simp

/-! ## Helper lemma: a second liminalize pass never lowers an edge factor -/

theorem liminalize_twice_ge {m : GameMap} (hwf : m.WF) (hf : m.Fresh)
    {x y : ℕ} (hx : x < m.width) (hy : y < m.height) :
    ((m.liminalize).get x y).edgeFactor ≤
      ((m.liminalize.liminalize).get x y).edgeFactor := by
  have hwf1 : (m.liminalize).WF := liminalize_WF hwf
  have hle1 : ∀ a b : ℕ, ((m.liminalize).get a b).edgeFactor ≤ 1 :=
    fun a b => liminalize_get_ef_le_one hf a b
  have hx1 : x < (m.liminalize).width := hx
  have hy1 : y < (m.liminalize).height := hy
  rw [liminalize_edgeFactor_fresh hwf hf hx hy,
    liminalize_edgeFactor_le_one_input hwf1 hle1 hx1 hy1]
  by_cases hA : (m.neighborsOf (m.get x y)).any
      (fun nb => nb.kind != (m.get x y).kind) = true
  · rw [if_pos hA]
    have hkindt : ((m.liminalize).get x y).kind = (m.get x y).kind := by
      rw [liminalize_get hwf hx hy]
    have hpt : ((m.liminalize).get x y).point = (m.get x y).point := by
      rw [liminalize_get hwf hx hy]
    have hB : ((m.liminalize).neighborsOf ((m.liminalize).get x y)).any
        (fun nb => nb.kind != ((m.liminalize).get x y).kind || nb.edgeFactor == 1)
        = true := by
      obtain ⟨nb, hnb, hkind⟩ := List.any_eq_true.mp hA
      obtain ⟨q, hq, rfl⟩ := List.mem_map.mp hnb
      obtain ⟨hb1, hb2, hb3, hb4⟩ := mem_neighborCoords_bounds hq
      have hqx : q.1.toNat < m.width := by omega
      have hqy : q.2.toNat < m.height := by omega
      have hkind1 : ((m.liminalize).get q.1.toNat q.2.toNat).kind =
          (m.get q.1.toNat q.2.toNat).kind := by
        rw [liminalize_get hwf hqx hqy]
      refine List.any_eq_true.mpr
        ⟨(m.liminalize).get q.1.toNat q.2.toNat, ?_, ?_⟩
      · refine List.mem_map.mpr ⟨q, ?_, rfl⟩
        show q ∈ ((m.liminalize).get x y).neighborCoords m.width m.height 1
        rw [neighborCoords_congr hpt]
        exact hq
      · simp only [Bool.or_eq_true]
        left
        rw [hkind1, hkindt]
        exact hkind
    rw [if_pos hB]
  · rw [if_neg hA]
    omega

/-! ## Helper lemmas: the nearest-seed fold -/

theorem foldl_min_le (a : ℤ) : ∀ (l : List ℤ), l.foldl min a ≤ a
  | [] => le_rfl
  | x :: t => le_trans (foldl_min_le (min a x) t) (min_le_left a x)

theorem foldl_nearestStep_eq (p : ℤ × ℤ) :
    ∀ (t : List CenterPoint) (c : CenterPoint),
      t.foldl (nearestStep p) (sqrDistZ p c.point, some c) =
        ((t.map (fun s => sqrDistZ p s.point)).foldl min (sqrDistZ p c.point),
          (c :: t).find? (fun s => sqrDistZ p s.point =
            (t.map (fun s => sqrDistZ p s.point)).foldl min (sqrDistZ p c.point)))
  | [], c => by
      simp [List.find?_cons]
  | s :: t2, c => by
      rw [List.foldl_cons]
      by_cases hlt : sqrDistZ p s.point < sqrDistZ p c.point
      · have hstep : nearestStep p (sqrDistZ p c.point, some c) s =
            (sqrDistZ p s.point, some s) := by
          simp [nearestStep, hlt]
        have hmin : (List.map (fun s => sqrDistZ p s.point) (s :: t2)).foldl min
            (sqrDistZ p c.point) =
            (List.map (fun s => sqrDistZ p s.point) t2).foldl min (sqrDistZ p s.point) := by
          rw [List.map_cons, List.foldl_cons, min_eq_right hlt.le]
        have hM_le : (List.map (fun s => sqrDistZ p s.point) t2).foldl min
            (sqrDistZ p s.point) ≤ sqrDistZ p s.point := foldl_min_le _ _
        have hcne : ¬ (sqrDistZ p c.point =
            (List.map (fun s => sqrDistZ p s.point) t2).foldl min (sqrDistZ p s.point)) := by
          omega
        rw [hstep, foldl_nearestStep_eq p t2 s, hmin]
        conv_rhs => rw [List.find?_cons_of_neg _ (by simpa using hcne)]
      · have hstep : nearestStep p (sqrDistZ p c.point, some c) s =
            (sqrDistZ p c.point, some c) := by
          simp [nearestStep, hlt]
        have hcs : sqrDistZ p c.point ≤ sqrDistZ p s.point := by omega
        have hmin : (List.map (fun s => sqrDistZ p s.point) (s :: t2)).foldl min
            (sqrDistZ p c.point) =
            (List.map (fun s => sqrDistZ p s.point) t2).foldl min (sqrDistZ p c.point) := by
          rw [List.map_cons, List.foldl_cons, min_eq_left hcs]
        have hM_le : (List.map (fun s => sqrDistZ p s.point) t2).foldl min
            (sqrDistZ p c.point) ≤ sqrDistZ p c.point := foldl_min_le _ _
        rw [hstep, foldl_nearestStep_eq p t2 c, hmin]
        by_cases hc : sqrDistZ p c.point =
            (List.map (fun s => sqrDistZ p s.point) t2).foldl min (sqrDistZ p c.point)
        · conv_lhs => rw [List.find?_cons_of_pos _ (by simpa using hc)]
          conv_rhs => rw [List.find?_cons_of_pos _ (by simpa using hc)]
        · have hsne : ¬ (sqrDistZ p s.point =
              (List.map (fun s => sqrDistZ p s.point) t2).foldl min (sqrDistZ p c.point)) := by
            omega
          conv_lhs => rw [List.find?_cons_of_neg _ (by simpa using hc)]
          conv_rhs => rw [List.find?_cons_of_neg _ (by simpa using hc),
            List.find?_cons_of_neg _ (by simpa using hsne)]

theorem classifyCell_eq_specKind (cps : List CenterPoint) (p : ℤ × ℤ)
    (hne : cps ≠ [])
    (hlt : ∀ c ∈ cps, sqrDistZ p c.point < jsMaxValue) :
    classifyCell cps p = (specNearestSeed cps p).map (fun c => c.kind) := by
  match cps with
  | [] => exact absurd rfl hne
  | c :: t =>
      unfold classifyCell nearestCenterPoint
      rw [List.foldl_cons]
      have h1 : nearestStep p (jsMaxValue, none) c = (sqrDistZ p c.point, some c) := by
        simp [nearestStep, hlt c (List.mem_cons_self c t)]
      rw [h1, foldl_nearestStep_eq p t c]
      unfold specNearestSeed specMinSqrDist
      simp only [List.map_cons]

/-! ## Helper lemmas: vector sums and the Separation fold -/

theorem vaddZeroLeft (a : Vec) : vadd (0, 0) a = a := by
  cases a
  simp [vadd]

theorem vaddZeroRight (a : Vec) : vadd a (0, 0) = a := by
  cases a
  simp [vadd]

theorem vaddAssoc (a b c : Vec) : vadd (vadd a b) c = vadd a (vadd b c) := by
  simp only [vadd, Prod.mk.injEq]
  constructor <;> ring

theorem foldl_vadd_eq : ∀ (l : List Vec) (a : Vec), l.foldl vadd a = vadd a (vsum l)
  | [], a => (vaddZeroRight a).symm
  | x :: t, a => by
      show t.foldl vadd (vadd a x) = vadd a (vsum (x :: t))
      have hx : vsum (x :: t) = vadd x (vsum t) := by
        show t.foldl vadd (vadd (0, 0) x) = _
        rw [vaddZeroLeft, foldl_vadd_eq t x]
      rw [hx, foldl_vadd_eq t (vadd a x), vaddAssoc]

theorem vsum_cons (x : Vec) (t : List Vec) : vsum (x :: t) = vadd x (vsum t) := by
  show t.foldl vadd (vadd (0, 0) x) = _
  rw [vaddZeroLeft, foldl_vadd_eq t x]

theorem avoid_step_eq (r s q : Vec) : vadd (vsub r s) q = vadd r (vsub q s) := by
  simp only [vadd, vsub, Prod.mk.injEq]
  constructor <;> ring

theorem avoidanceImpl_foldl_eq (self : BoidState) (thr : ℚ) :
    ∀ (others : List BoidState) (r : Vec),
      others.foldl
        (fun result b =>
          if sqrDistQ self.position b.position < thr then
            vadd (vsub result self.position) b.position
          else result) r =
      vadd r (vsum ((others.filter
        (fun b => sqrDistQ self.position b.position < thr)).map
          (fun b => vsub b.position self.position)))
  | [], r => (vaddZeroRight r).symm
  | b :: t, r => by
      rw [List.foldl_cons]
      by_cases hb : sqrDistQ self.position b.position < thr
      · rw [if_pos hb, List.filter_cons_of_pos (by simpa using hb),
          avoidanceImpl_foldl_eq self thr t _, avoid_step_eq,
          List.map_cons, vsum_cons, vaddAssoc]
      · rw [if_neg hb, List.filter_cons_of_neg (by simpa using hb),
          avoidanceImpl_foldl_eq self thr t r]

theorem avoidanceImpl_eq (self : BoidState) (thr : ℚ) (others : List BoidState) :
    avoidanceImpl self thr others =
      vsum ((others.filter (fun b => sqrDistQ self.position b.position < thr)).map
        (fun b => vsub b.position self.position)) := by
  rw [avoidanceImpl, avoidanceImpl_foldl_eq self thr others (0, 0), vaddZeroLeft]

/-! ## Claim theorems -/

/-- Claim C1.  The claim says the Separation (AvoidanceRule) raw
contribution accumulates `(self.position - peer.position)` per close
peer, so the net points away from close peers.  The code does the
opposite: its loop body runs `result -= target.position;
result += otherBoid.position`, accumulating `(peer - self)`.  At the
failing input - self at the origin, one peer at (1,0), threshold 10 -
the embedded `AvoidanceRule.applyImpl` returns `peer - self = (1, 0)`,
pointing toward the peer, and not `self - peer = (-1, 0)` as claimed. -/
theorem claimC1_avoidance_sign :
    avoidanceImpl boidA 10 [boidB] = vsub boidB.position boidA.position ∧
    avoidanceImpl boidA 10 [boidB] ≠ vsub boidA.position boidB.position := by
  constructor
  · norm_num [avoidanceImpl, sqrDistQ, boidA, boidB, vadd, vsub]
  · norm_num [avoidanceImpl, sqrDistQ, boidA, boidB, vadd, vsub, Prod.ext_iff]

/-- Claim C2, counterexample.  The claim says that for a single-agent
flock the Cohesion and VelocityMatching contributions are exactly the
zero vector, the division by the peer count being special-cased.  In the
IEEE-754 special-value model of the code neither contribution is the
zero vector at the empty peer set. -/
theorem claimC2_counterexample :
    jsCenterOfMassImpl zeroJsBoid [] ≠ (JsNum.fin 0, JsNum.fin 0) ∧
    jsMatchVelocityImpl zeroJsBoid [] ≠ (JsNum.fin 0, JsNum.fin 0) := by
  have h1 : jsCenterOfMassImpl zeroJsBoid [] = (JsNum.nan, JsNum.nan) := rfl
  have h2 : jsMatchVelocityImpl zeroJsBoid [] = (JsNum.nan, JsNum.nan) := rfl
  rw [h1, h2]
  constructor <;> simp

/-- Claim C2, amended.  With an empty peer set the code performs no
special-casing: `CenterOfMassRule.applyImpl` and
`MatchVelocityRule.applyImpl` compute `0 * (1/0) = 0 * Infinity = NaN`
in both components, and the weighted results `BoidRule.apply` would add
into the agent's velocity are NaN as well. -/
theorem claimC2_amended_nan :
    jsCenterOfMassImpl zeroJsBoid [] = (JsNum.nan, JsNum.nan) ∧
    jsMatchVelocityImpl zeroJsBoid [] = (JsNum.nan, JsNum.nan) ∧
    jvscale (jsCenterOfMassImpl zeroJsBoid []) (JsNum.fin (1 / 100)) =
      (JsNum.nan, JsNum.nan) ∧
    jvscale (jsMatchVelocityImpl zeroJsBoid []) (JsNum.fin (1 / 8)) =
      (JsNum.nan, JsNum.nan) :=
  ⟨rfl, rfl, rfl, rfl⟩

set_option maxRecDepth 10000 in
/-- Claim C3.  The claim says `MapTile.neighbors` examines exactly the
in-bounds cells of the full 8-cell Moore neighborhood.  The transcribed
guard `x !== px && y !== py` skips the whole row and column of the cell
instead of just the cell itself, so for the center cell of a 3-by-3 map
the code examines only the 4 diagonal cells and not the 8-cell Moore
neighborhood of the claim. -/
theorem claimC3_neighbor_set :
    ((mkGameMap 3 3).get 1 1).neighborCoords 3 3 1 =
      [(0, 0), (2, 0), (0, 2), (2, 2)] ∧
    specMooreNeighborCoords (1, 1) 3 3 =
      [(0, 0), (1, 0), (2, 0), (0, 1), (2, 1), (0, 2), (1, 2), (2, 2)] ∧
    ((mkGameMap 3 3).get 1 1).neighborCoords 3 3 1 ≠
      specMooreNeighborCoords (1, 1) 3 3 := by
  decide

set_option maxRecDepth 10000 in
/-- Claim C4.  The claim says that after `liminalize` on a freshly
classified map a cell's edge factor is nonzero as soon as some in-bounds
grid neighbor has a different class.  On the 2-by-1 map whose two cells
have different classes, the cell (0,0) keeps edge factor 0 although its
in-bounds Moore neighbor (1,0) has a different class - the buggy
neighbor guard never examines (1,0). -/
theorem claimC4_edge_factor_missed_neighbor :
    (cexMap21.liminalize.get 0 0).edgeFactor = 0 ∧
    ((1 : ℤ), (0 : ℤ)) ∈ specMooreNeighborCoords (0, 0) 2 1 ∧
    (cexMap21.get 1 0).kind ≠ (cexMap21.get 0 0).kind := by
  decide

set_option maxRecDepth 10000 in
/-- Claim C5, counterexample.  The claim says a second `liminalize` run
on the already-smoothed map reproduces the same edge factors.  On the
3-by-3 map `cexMap3` the cell (2,0) has edge factor 0 after one run and
edge factor 1 after two runs: the second run propagates the nonzero
edge factor of its diagonal neighbor (1,1) even though every examined
neighbor of (2,0) has the same class. -/
theorem claimC5_counterexample :
    ((cexMap3.liminalize.liminalize).get 2 0).edgeFactor ≠
      ((cexMap3.liminalize).get 2 0).edgeFactor := by
  decide

/-- Claim C5, amended.  Re-running `liminalize` on the result of a first
run from the all-zero edge-factor state need not reproduce the same
edge factors; it can only preserve or increase them: for every in-bounds
cell the edge factor after the second run is at least the edge factor
after the first.  The output is a function of the classification grid
and the pre-existing edge factors, not of the classification alone. -/
theorem claimC5_amended_monotone (m : GameMap) (hwf : m.WF) (hf : m.Fresh)
    (x y : ℕ) (hx : x < m.width) (hy : y < m.height) :
    ((m.liminalize).get x y).edgeFactor ≤
      ((m.liminalize.liminalize).get x y).edgeFactor :=
  liminalize_twice_ge hwf hf hx hy

set_option maxRecDepth 10000 in
/-- Witness for the amended claim C5 at the concrete map `cexMap3` and
cell (2,0), where the inequality is strict. -/
theorem claimC5_amended_monotone_witness :
    cexMap3.WF ∧ cexMap3.Fresh ∧
    ((cexMap3.liminalize).get 2 0).edgeFactor ≤
      ((cexMap3.liminalize.liminalize).get 2 0).edgeFactor :=
  ⟨by decide, by decide,
    claimC5_amended_monotone cexMap3 (by decide) (by decide) 2 0 (by decide) (by decide)⟩

/-- Claim C6.  For a well-formed map, a non-empty seed list and a cell
(x,y) in bounds, the classification loop assigns to the cell exactly the
kind of the first seed (in iteration order) whose squared distance to
the cell attains the minimum - ties are broken in favor of the earliest
seed because only a strict improvement replaces the running minimum.
The hypothesis that every distance is below `Number.MAX_VALUE` is the
condition for the first loop iteration to capture a seed at all; it
holds for every seed the program generates. -/
theorem claimC6_nearest_seed (m : GameMap) (cps : List CenterPoint) (x y : ℕ)
    (hwf : m.WF) (hne : cps ≠ []) (hx : x < m.width) (hy : y < m.height)
    (hlt : ∀ c ∈ cps, sqrDistZ ((x : ℤ), (y : ℤ)) c.point < jsMaxValue) :
    ((m.classify cps).get x y).kind =
      (specNearestSeed cps ((x : ℤ), (y : ℤ))).map (fun c => c.kind) := by
  rw [classify_get hwf cps hx hy]
  exact classifyCell_eq_specKind cps _ hne hlt

set_option maxRecDepth 10000 in
/-- Witness for claim C6 at a 2-by-2 map with two seeds tied at squared
distance 1 from the cell (1,0): the assigned kind is that of the first
seed of the list. -/
theorem claimC6_nearest_seed_witness :
    (mkGameMap 2 2).WF ∧
    (((mkGameMap 2 2).classify [⟨(0, 0), 0⟩, ⟨(2, 0), 1⟩]).get 1 0).kind =
      (specNearestSeed [⟨(0, 0), 0⟩, ⟨(2, 0), 1⟩] ((1 : ℤ), (0 : ℤ))).map
        (fun c => c.kind) :=
  ⟨by decide,
    claimC6_nearest_seed (mkGameMap 2 2) [⟨(0, 0), 0⟩, ⟨(2, 0), 1⟩] 1 0
      (by decide) (by decide) (by decide) (by decide) (by decide)⟩

/-- Claim C7.  A peer enters the Separation accumulation exactly when
its squared distance to the agent is strictly below the threshold: the
rule's output is the sum over the strictly-close peers of the per-peer
term, and a peer at squared distance exactly equal to the threshold
leaves the output unchanged. -/
theorem claimC7_strict_threshold (self : BoidState) (thr : ℚ)
    (others : List BoidState) :
    avoidanceImpl self thr others =
      vsum ((others.filter (fun b => sqrDistQ self.position b.position < thr)).map
        (fun b => vsub b.position self.position)) ∧
    ∀ b : BoidState, sqrDistQ self.position b.position = thr →
      avoidanceImpl self thr (b :: others) = avoidanceImpl self thr others := by
  refine ⟨avoidanceImpl_eq self thr others, ?_⟩
  intro b hb
  simp [avoidanceImpl, List.foldl_cons, hb]

/-- Witness for claim C7: a peer at squared distance exactly 10 (the
configured threshold) contributes nothing. -/
theorem claimC7_strict_threshold_witness :
    sqrDistQ boidA.position boidC.position = 10 ∧
    avoidanceImpl boidA 10 (boidC :: []) = avoidanceImpl boidA 10 [] :=
  ⟨by norm_num [sqrDistQ, boidA, boidC],
    (claimC7_strict_threshold boidA 10 []).2 boidC
      (by norm_num [sqrDistQ, boidA, boidC])⟩

/-- Claim C8, counterexample.  The claim says map generation with a
non-positive dimension fails with an InvalidDimension error surfaced to
the caller.  With width 0 and height 5 the embedded constructor succeeds
and silently returns a map with no tiles; it raises no error. -/
theorem claimC8_counterexample :
    mkGameMapZ 0 5 = Except.ok ⟨0, 5, 0, []⟩ ∧
    mkGameMapZ 0 5 ≠ Except.error JsHostError.rangeError := by
  refine ⟨rfl, ?_⟩
  intro h
  exact absurd h (by simp [mkGameMapZ])

/-- Claim C8, amended.  The `Map` constructor performs no dimension
validation and no InvalidDimension error exists in the repository: a
zero dimension (or two negative dimensions) silently yields a map whose
populated tile collection is empty, and the only failing case is a
negative `width * height` product, which makes the host's array
allocation throw a RangeError. -/
theorem claimC8_amended_no_validation :
    mkGameMapZ 0 5 = Except.ok ⟨0, 5, 0, []⟩ ∧
    mkGameMapZ 3 (-2) = Except.error JsHostError.rangeError ∧
    mkGameMapZ (-2) (-3) = Except.ok ⟨-2, -3, 6, []⟩ :=
  ⟨rfl, rfl, rfl⟩

/-- Claim C9.  With think throttling at `BOID_THINK_RATE = 6`:
on every tick the position advances by exactly the (post-update)
velocity scaled by 1/6; on ticks whose frame counter is not divisible
by 6 the velocity is unchanged; and on think ticks the velocity is the
old velocity plus the five weighted rule results.  The non-empty peer
set hypothesis restricts the statement to the flocks on which the
rational model is faithful (no division by a zero peer count occurs
inside the rules); the update structure itself does not depend on it. -/
theorem claimC9_think_rate (frame : ℕ) (mouse : Vec) (mapWidth mapHeight : ℕ)
    (all : List BoidState) (b : BoidState) (_hpeers : otherBoids b all ≠ []) :
    (simulateBoid frame mouse mapWidth mapHeight all b).position =
      vadd b.position
        (vscale (simulateBoid frame mouse mapWidth mapHeight all b).velocity (1 / 6)) ∧
    (frame % BOID_THINK_RATE ≠ 0 →
      (simulateBoid frame mouse mapWidth mapHeight all b).velocity = b.velocity) ∧
    (frame % BOID_THINK_RATE = 0 →
      (simulateBoid frame mouse mapWidth mapHeight all b).velocity =
        (ruleResults mouse mapWidth mapHeight b (otherBoids b all)).foldl vadd
          b.velocity) := by
  refine ⟨rfl, ?_, ?_⟩
  · intro h
    simp [simulateBoid, h]
  · intro h
    simp [simulateBoid, h]

/-- Witness for claim C9 in a two-boid flock at the non-think frame 1:
the velocity is unchanged. -/
theorem claimC9_think_rate_witness :
    otherBoids boidA flockW ≠ [] ∧
    (simulateBoid 1 (0, 0) 4 4 flockW boidA).velocity = boidA.velocity :=
  ⟨by decide,
    (claimC9_think_rate 1 (0, 0) 4 4 flockW boidA (by decide)).2.1 (by decide)⟩

/-- Claim C10.  `liminalize` mutates only edge factors: width, height,
the number of tiles, and every tile's coordinate and class are unchanged,
index by index. -/
theorem claimC10_liminalize_frame (m : GameMap)
    (hlen : m.tiles.length = m.height * m.width) :
    (m.liminalize).width = m.width ∧
    (m.liminalize).height = m.height ∧
    (m.liminalize).tiles.length = m.tiles.length ∧
    ∀ i : ℕ,
      ((m.liminalize).tiles.getD i default).point =
        (m.tiles.getD i default).point ∧
      ((m.liminalize).tiles.getD i default).kind =
        (m.tiles.getD i default).kind := by
  have hels : ((pointsList m.width m.height).map
      (fun p => m.maxEdgeForTile (m.get p.1.toNat p.2.toNat))).length
      = m.tiles.length := by
    rw [List.length_map, pointsList_length, hlen]
  refine ⟨rfl, rfl, ?_, ?_⟩
  · rw [liminalize_tiles_eq, List.length_zipWith, hels, Nat.min_self]
  · intro i
    by_cases hi : i < m.tiles.length
    · have ht := List.getElem?_eq_getElem hi
      have hie : i < ((pointsList m.width m.height).map
          (fun p => m.maxEdgeForTile (m.get p.1.toNat p.2.toNat))).length := by
        rw [hels]; exact hi
      have he := List.getElem?_eq_getElem hie
      have hz := zipWith_getElem?_eq (fun t e => { t with edgeFactor := e }) ht he
      rw [← liminalize_tiles_eq] at hz
      rw [List.getD_eq_getElem?_getD, List.getD_eq_getElem?_getD, hz, ht]
      exact ⟨rfl, rfl⟩
    · have h1 : m.tiles[i]? = none := List.getElem?_eq_none (by omega)
      have h2 : (m.liminalize).tiles[i]? = none := by
        apply List.getElem?_eq_none
        rw [liminalize_tiles_eq, List.length_zipWith, hels, Nat.min_self]
        omega
      rw [List.getD_eq_getElem?_getD, List.getD_eq_getElem?_getD, h1, h2]
      exact ⟨rfl, rfl⟩

set_option maxRecDepth 10000 in
/-- Witness for claim C10 at a concrete 2-by-2 map and index 3. -/
theorem claimC10_liminalize_frame_witness :
    (mkGameMap 2 2).tiles.length =
      (mkGameMap 2 2).height * (mkGameMap 2 2).width ∧
    (((mkGameMap 2 2).liminalize).tiles.getD 3 default).point =
      ((mkGameMap 2 2).tiles.getD 3 default).point :=
  ⟨by decide, ((claimC10_liminalize_frame (mkGameMap 2 2) (by decide)).2.2.2 3).1⟩
